import Mathlib

/-!
Verification development for the sparrow scheduling engine.

The Rust sources are embedded shallowly:

* `chrono::DateTime<Local>` timestamps are modelled as integers counting
  minutes on a linear time line (all arithmetic the engine performs on
  timestamps adds whole minutes or whole days; a calendar day is 1440
  minutes and `Date::succ` is `+ 1440`; DST shifts are not modelled).
* `chrono::Duration` values produced by subtracting two timestamps are
  therefore exact minute counts, so `num_minutes()` is the identity and
  `num_days()` is truncating division by 1440 (`Int.tdiv`, which rounds
  toward zero exactly like chrono and Rust `i64` division).
* Rust `u32`/`u64` fields are modelled as `Nat`; where the source casts a
  possibly-negative `i64` to `u32` (`as u32`), the model takes the value
  modulo 2^32 (`% 4294967296` with `Int.emod`), which is what two's
  complement truncation computes.
* Unbounded `Iterator`s that the source consumes through `take_while` are
  modelled as fuel-bounded generators; every call site passes fuel that
  dominates the number of iterator steps the `take_while` can consume
  (each step advances time by at least one day, so `(horizon - start).toNat + 1`
  steps always suffice), making the fuel cut-off unreachable.
* `Vec::retain` is order-preserving filtering; `sort_by_cached_key` is a
  stable sort by an integer key, modelled by a stable insertion sort.
-/

namespace Sparrow

/-- `TimeSpan` from `src/spans.rs`: a single block of time.  `start` is an
absolute timestamp in minutes, `minutes` the non-negative length. -/
structure TimeSpan where
  start : Int
  minutes : Nat
deriving DecidableEq, Repr

/-- `TimeSpan::end`: `start + minutes` (named `endT` because `end` is a Lean
keyword). -/
def TimeSpan.endT (s : TimeSpan) : Int := s.start + s.minutes

/-- `TimeSpan::overlaps` from `src/spans.rs`, literally: compares the span
ends against the sum of the two durations. -/
def TimeSpan.overlaps (a b : TimeSpan) : Bool :=
  let self_end := a.endT
  let other_end := b.endT
  let total_duration : Int := (a.minutes : Int) + (b.minutes : Int)
  if other_end > a.start then decide (other_end - a.start < total_duration)
  else if self_end > b.start then decide (self_end - b.start < total_duration)
  else true

/-- `TimeSpan::touches`: overlap, or one end equal to the other start. -/
def TimeSpan.touches (a b : TimeSpan) : Bool :=
  a.overlaps b || decide (a.start = b.endT) || decide (a.endT = b.start)

/-- `TimeSpan::time_between` from `src/spans.rs`.  The two `minutes` fields
are computed exactly as in the source: `(second.end() - first.start)`
(resp. `(first.end() - second.start)`), whose `num_minutes()` is negative in
the branch that computes it, truncated to `u32` by the `as u32` cast
(modulo 2^32). -/
def TimeSpan.time_between (first second : TimeSpan) : Option TimeSpan :=
  if first.touches second then none
  else if decide (first.start > second.endT) then
    some ⟨second.endT, ((second.endT - first.start) % 4294967296).toNat⟩
  else
    some ⟨first.endT, ((first.endT - second.start) % 4294967296).toNat⟩

/-- `Repeat` from `src/spans.rs` (the final snapshot: `Weekly` carries no
weekday set). -/
inductive Repeat where
  | no
  | daily
  | weekly
deriving DecidableEq, Repr

/-- `CalendarEventType` from `src/spans.rs`. -/
inductive CalendarEventType where
  | brk
  | event
deriving DecidableEq, Repr

/-- `CalendarEvent` from `src/spans.rs`. -/
structure CalendarEvent where
  name : String
  time_span : TimeSpan
  event_type : CalendarEventType
  rep : Repeat
deriving DecidableEq, Repr

/-- `Bedtime` from `src/spans.rs`.  The source stores `start : NaiveTime`
and `hours : f32`; the model stores the start as minutes after midnight and
the duration directly in minutes (the source converts by
`(hours * 60.0) as u32`, exact for the whole/half-hour values the type is
used with). -/
structure Bedtime where
  start : Int
  minutes : Nat
deriving DecidableEq, Repr

/-- `TaskDuration` and `Subtask` from `src/task.rs`. -/
structure Subtask where
  name : String
  duration : Nat
deriving DecidableEq, Repr

inductive TaskDuration where
  | minutes (m : Nat)
  | subtasks (subs : List Subtask)
deriving DecidableEq, Repr

/-- `Task` from `src/task.rs`; `due_date` is a timestamp in minutes. -/
structure Task where
  name : String
  due_date : Int
  duration : TaskDuration
  done : Bool
  consideration_period_days : Nat
deriving DecidableEq, Repr

/-- `Config` from `src/data.rs` (the fields the engine reads; the
formatting strings and `next_event_warning_minutes`, which the scheduler
never consults, are omitted). -/
structure Config where
  work_minutes : Nat
  short_break_minutes : Nat
  long_break_minutes : Nat
  work_periods_per_job_session : Nat
  allow_repeats : Bool
  skip_days : List Nat
  ivy_lee_tasks_per_day : Nat
deriving DecidableEq, Repr

/-- `PomodoroScheduleEntry` from `src/methods/pomodoro.rs`. -/
inductive PomodoroScheduleEntry where
  | Job (title : String) (span : TimeSpan)
  | Calendar (name : String) (span : TimeSpan)
  | Break (span : TimeSpan)
  | Sleep (span : TimeSpan)
deriving DecidableEq, Repr

/-- `PomodoroScheduleEntry::span`. -/
def PomodoroScheduleEntry.span : PomodoroScheduleEntry → TimeSpan
  | .Job _ s => s
  | .Calendar _ s => s
  | .Break s => s
  | .Sleep s => s

/-- Rebuild an entry around a new span, as the
`Some(match current_entry ...)` block of `PomodoroScheduleEntryIter::next`
does. -/
def PomodoroScheduleEntry.withSpan : PomodoroScheduleEntry → TimeSpan → PomodoroScheduleEntry
  | .Job t _, sp => .Job t sp
  | .Calendar n _, sp => .Calendar n sp
  | .Break _, sp => .Break sp
  | .Sleep _, sp => .Sleep sp

/-- `current_date.succ().and_time(current_time)` (resp. `+ 7 days`): the
same time of day, `days` calendar days later. -/
def TimeSpan.plusDays (sp : TimeSpan) (days : Nat) : TimeSpan :=
  ⟨sp.start + 1440 * days, sp.minutes⟩

/-- One call of `PomodoroScheduleEntryIter::next` (the state is the
iterator's `next` field): returns the emitted item and the new state.
Faithful to the source, including the `Repeat::No => return None` arm,
which exits `next()` *before* the prepared `result` is returned and leaves
`self.next` unassigned — so a never-repeating event emits nothing at all. -/
def pomodoroIterNext (rep : Repeat) :
    Option PomodoroScheduleEntry → Option PomodoroScheduleEntry × Option PomodoroScheduleEntry
  | none => (none, none)
  | some cur =>
    match rep with
    | .no => (none, some cur)
    | .daily => (some cur, some (cur.withSpan (cur.span.plusDays 1)))
    | .weekly => (some cur, some (cur.withSpan (cur.span.plusDays 7)))

/-- The entries `take_while (|s| *s.span().start() < horizon)` collects from a
`PomodoroScheduleEntryIter` whose state is `st`.  `fuel` bounds the number
of iterator calls; callers pass `(horizon - start).toNat + 1`, which dominates
the number of steps the `take_while` can consume because each emitted item
advances the start by at least 1440 minutes. -/
def iterCollect (rep : Repeat) :
    Nat → Option PomodoroScheduleEntry → Int → List PomodoroScheduleEntry
  | 0, _, _ => []
  | fuel + 1, st, horizon =>
    match pomodoroIterNext rep st with
    | (none, _) => []
    | (some e, st2) =>
      if decide (e.span.start < horizon) then e :: iterCollect rep fuel st2 horizon
      else []

/-- The first item `PomodoroScheduleEntryIter::from` prepares for a
calendar event. -/
def CalendarEvent.initialEntry (e : CalendarEvent) : PomodoroScheduleEntry :=
  match e.event_type with
  | .event => .Calendar e.name e.time_span
  | .brk => .Break e.time_span

/-- All schedule entries a calendar event contributes before `horizon` (source: `until`):
`PomodoroScheduleEntryIter::from(&e).take_while(|s| *s.span().start() < horizon)`. -/
def CalendarEvent.entriesBefore (e : CalendarEvent) (horizon : Int) : List PomodoroScheduleEntry :=
  iterCollect e.rep ((horizon - e.time_span.start).toNat + 1) (some e.initialEntry) horizon

/-- `BedtimeScheduleEntryIter::new` from `src/methods/pomodoro.rs`: the
first sleep span starts at the bedtime start on the day *before* `today`. -/
def Bedtime.initialSpan (b : Bedtime) (today : Int) : TimeSpan :=
  ⟨(today - 1) * 1440 + b.start, b.minutes⟩

/-- The sleep entries `BedtimeScheduleEntryIter` (which always emits and
advances one day) contributes through
`take_while (|s| *s.span().start() < horizon)`. -/
def bedtimeCollect : Nat → TimeSpan → Int → List PomodoroScheduleEntry
  | 0, _, _ => []
  | fuel + 1, cur, horizon =>
    if decide (cur.start < horizon) then
      .Sleep cur :: bedtimeCollect fuel ⟨cur.start + 1440, cur.minutes⟩ horizon
    else []

/-- All sleep entries before `horizon` (fuel chosen as everywhere else). -/
def Bedtime.entriesBefore (b : Bedtime) (today horizon : Int) : List PomodoroScheduleEntry :=
  bedtimeCollect ((horizon - (b.initialSpan today).start).toNat + 1) (b.initialSpan today) horizon

/-- Stable insertion into a list sorted ascending by `key` (an element is
placed after every element with an equal key). -/
def insertByKey (key : α → Int) (x : α) : List α → List α
  | [] => [x]
  | y :: ys => if decide (key x < key y) then x :: y :: ys else y :: insertByKey key x ys

/-- Stable sort ascending by an integer key; models
`Vec::sort_by_cached_key`. -/
def sortByKey (key : α → Int) : List α → List α
  | [] => []
  | x :: xs => insertByKey key x (sortByKey key xs)

/-- `sort_entries` / `v.sort_by_cached_key(|e| *e.span().start())`. -/
def sort_entries (entries : List PomodoroScheduleEntry) : List PomodoroScheduleEntry :=
  sortByKey (fun e => e.span.start) entries

/-- `PomodoroSchedule::breaks_to_schedule_entries`: expand every calendar
event and the bedtime up to `horizon` (source: `until`), concatenate, and
sort ascending by start. -/
def breaks_to_schedule_entries (events : List CalendarEvent) (horizon : Int)
    (bedtime : Bedtime) (today : Int) : List PomodoroScheduleEntry :=
  sort_entries
    ((events.flatMap (fun e => e.entriesBefore horizon)) ++ bedtime.entriesBefore today horizon)

/-- `WorkSession` from `src/methods/pomodoro.rs`. -/
structure WorkSession where
  start : Int
  job_names : List String
  max_jobs : Nat
  job_len_minutes : Nat
  break_len_minutes : Nat
deriving DecidableEq, Repr

/-- `WorkSession::len_minutes` (the session length; note the Nat
subtraction `work_periods_per_job_session - 1`, which in the source is a
`u32` subtraction that would underflow for 0 periods). -/
def WorkSession.len_minutes (config : Config) : Nat :=
  config.work_periods_per_job_session * config.work_minutes
    + (config.work_periods_per_job_session - 1) * config.short_break_minutes
    + config.long_break_minutes

/-- `WorkSession::new`. -/
def WorkSession.new (start : Int) (config : Config) : WorkSession :=
  ⟨start, [], config.work_periods_per_job_session, config.work_minutes,
    config.short_break_minutes⟩

/-- `WorkSession::full`. -/
def WorkSession.full (s : WorkSession) : Bool :=
  decide (s.job_names.length ≥ s.max_jobs)

/-- `WorkSession::add_job`, keeping the Rust shape: the returned session is
the (possibly mutated) receiver and the second component is the
`SparrowResult<()>`; on the error path the job list is untouched. -/
def WorkSession.add_job (s : WorkSession) (name : String) : WorkSession × Except String Unit :=
  if s.full then (s, .error "work session is full; no more jobs can be scheduled")
  else ({ s with job_names := s.job_names ++ [name] }, .ok ())

/-- `WorkSession::ending`. -/
def WorkSession.ending (s : WorkSession) : Int :=
  if s.job_names.isEmpty then s.start
  else s.start + ((s.job_names.length * s.job_len_minutes : Nat) : Int)
    + (((s.job_names.length - 1) * s.break_len_minutes : Nat) : Int)

/-- `impl Into<Vec<PomodoroScheduleEntry>> for WorkSession`: one job and
one break per enumerated job name (the break span length is
`self.job_len_minutes`, exactly as the source writes it), then `take`
trims the final short break. -/
def WorkSession.toEntries (s : WorkSession) : List PomodoroScheduleEntry :=
  if s.job_names.isEmpty then []
  else
    let job_break_len := s.job_len_minutes + s.break_len_minutes
    (s.job_names.enum.flatMap (fun pair =>
      [PomodoroScheduleEntry.Job pair.2
          ⟨s.start + ((pair.1 * job_break_len : Nat) : Int), s.job_len_minutes⟩,
       PomodoroScheduleEntry.Break
          ⟨s.start + ((s.job_len_minutes : Nat) : Int) + ((pair.1 * job_break_len : Nat) : Int),
            s.job_len_minutes⟩])).take (2 * s.job_names.length - 1)

/-- `UnscheduledPeriod` from `src/methods/pomodoro.rs` (the `task`
reference is held by value). -/
structure UnscheduledPeriod where
  task : Task
  name : String
  periods_left : Nat
deriving DecidableEq, Repr

/-- `(m as f64 / work_minutes as f64).ceil() as u32`: ceiling division,
exact for the integer ranges the program uses (both operands well below
2^53). -/
def ceilPeriods (m work_minutes : Nat) : Nat := (m + work_minutes - 1) / work_minutes

/-- `PomodoroSchedule::unscheduled_periods_from_tasks`. -/
def unscheduled_periods_from_tasks (config : Config) (tasks : List Task) :
    List UnscheduledPeriod :=
  tasks.flatMap (fun t =>
    match t.duration with
    | .minutes m => [⟨t, t.name, ceilPeriods m config.work_minutes⟩]
    | .subtasks subs =>
      subs.map (fun sub => ⟨t, t.name ++ ": " ++ sub.name, ceilPeriods sub.duration config.work_minutes⟩))

/-- The span pairs `get_open_work_sessions` walks: entries still relevant
(`skip_while end <= now`, `take_while start < horizon`), preceded by `now`
on the ending side and followed by `horizon` (source: `until`) on the
beginning side. -/
def span_pairs (entries : List PomodoroScheduleEntry) (now horizon : Int) : List (Int × Int) :=
  let filtered := (entries.dropWhile (fun e => decide (e.span.endT ≤ now))).takeWhile
    (fun e => decide (e.span.start < horizon))
  (now :: filtered.map (fun e => e.span.endT)).zip
    (filtered.map (fun e => e.span.start) ++ [horizon])

/-- `PomodoroSchedule::get_open_work_sessions`: for every pair, if there is
free time, `free_minutes / work_session_len` (truncating `i64` division)
sessions, the i-th offset by `i * work_session_len` from the free start. -/
def get_open_work_sessions (entries : List PomodoroScheduleEntry) (config : Config)
    (now horizon : Int) : List WorkSession :=
  let work_session_len : Int := (WorkSession.len_minutes config : Nat)
  (span_pairs entries now horizon).flatMap (fun pair =>
    if decide (pair.2 > pair.1) then
      (List.range ((Int.tdiv (pair.2 - pair.1) work_session_len).toNat)).map
        (fun i => WorkSession.new (pair.1 + (i : Int) * work_session_len) config)
    else [])

/-- The `should_retain` closure of `PomodoroSchedule::fill_free_time`. -/
def should_retain (now : Int) (u : UnscheduledPeriod) : Bool :=
  decide (u.periods_left > 0) && decide (u.task.due_date > now) && !u.task.done

/-- The inner `while unscheduled.periods_left > 0 && !open_session.full()`
loop of `fill_free_time`, one fuel per loop iteration (the loop decrements
`periods_left` exactly once per iteration, so the remaining period count is
an exact fuel).  Returns the session, the remaining period count, and a
flag that is `true` iff the `add_job(..).unwrap()` would have panicked. -/
def addJobLoop (name : String) : WorkSession → Nat → WorkSession × Nat × Bool
  | s, 0 => (s, 0, false)
  | s, n + 1 =>
    if s.full then (s, n + 1, false)
    else
      match s.add_job name with
      | (s2, .ok _) => addJobLoop name s2 n
      | (s2, .error _) => (s2, n + 1, true)

/-- The `for unscheduled in periods_left.iter_mut()` loop of
`fill_free_time` for one open session: skip periods failing
`should_retain`, abort the scan (`continue 'sessions`) when the session is
full, otherwise run the `add_job` loop and keep scanning.  Returns the
filled session, the updated queue, and the accumulated panic flag. -/
def fillSessionFromQueue (now : Int) (session : WorkSession) :
    List UnscheduledPeriod → WorkSession × List UnscheduledPeriod × Bool
  | [] => (session, [], false)
  | u :: rest =>
    if !should_retain now u then
      let r := fillSessionFromQueue now session rest
      (r.1, u :: r.2.1, r.2.2)
    else if session.full then (session, u :: rest, false)
    else
      let a := addJobLoop u.name session u.periods_left
      let r := fillSessionFromQueue now a.1 rest
      (r.1, { u with periods_left := a.2.1 } :: r.2.1, a.2.2 || r.2.2)

/-- The `'sessions: for open_session in open_sessions.iter_mut()` loop:
each round first retains (`should_retain`) the queue, then scans it for the
current session. -/
def fillSessions (now : Int) :
    List WorkSession → List UnscheduledPeriod → List WorkSession × List UnscheduledPeriod × Bool
  | [], queue => ([], queue, false)
  | s :: rest, queue =>
    let q1 := queue.filter (should_retain now)
    let a := fillSessionFromQueue now s q1
    let r := fillSessions now rest a.2.1
    (a.1 :: r.1, r.2.1, a.2.2 || r.2.2)

/-- `PomodoroSchedule::fill_free_time`.  The source reads `Local::now()`
twice (once directly and once inside `get_open_work_sessions`); both reads
are the single parameter `now` here, which is exactly the premise of claim
C9.  The returned flag records whether any `add_job(..).unwrap()` panicked
(the warning printout about unscheduled periods has no effect on the
entries and is not modelled). -/
def fill_free_time (entries : List PomodoroScheduleEntry) (config : Config)
    (tasks : List Task) (horizon now : Int) : List PomodoroScheduleEntry × Bool :=
  if tasks.isEmpty then (entries, false)
  else
    let periods_left := unscheduled_periods_from_tasks config tasks
    let open_sessions := get_open_work_sessions entries config now horizon
    let r := fillSessions now open_sessions periods_left
    (entries ++ r.1.flatMap (fun ws =>
        ws.toEntries ++ [.Break ⟨ws.ending, config.long_break_minutes⟩]),
      r.2.2)

/-- `<PomodoroSchedule as Schedule>::make`.  `now` is the value of the
`Local::now()` reads inside `fill_free_time`/`get_open_work_sessions` and
`today` the value of `Local::today()` inside `BedtimeScheduleEntryIter::new`;
the result is the schedule entry list (the `PomodoroSchedule` struct is
just that list). -/
def PomodoroSchedule.make (config : Config) (tasks : List Task)
    (events : List CalendarEvent) (bedtime : Bedtime) (now today : Int) :
    Except String (List PomodoroScheduleEntry) :=
  let sorted := sortByKey (fun t => t.due_date) tasks
  match sorted.getLast? with
  | none => .error "cannot make a schedule without tasks"
  | some last =>
    let horizon := last.due_date
    let entries := sort_entries (breaks_to_schedule_entries events horizon bedtime today)
    let r := fill_free_time entries config sorted horizon now
    .ok (sort_entries r.1)

/-- Convenience projection used only in statements. -/
def entriesOf (r : Except String (List PomodoroScheduleEntry)) : List PomodoroScheduleEntry :=
  match r with
  | .ok l => l
  | .error _ => []

/-- Modelled from the spec: `Bedtime::end` is called by
`src/methods/ivy_lee.rs` but its definition is not under `src/` (the
`Bedtime` in `src/spans.rs` predates it).  Spec 4.6a: the Ivy-Lee day is
anchored at "the end of the sleep window (i.e., wake time)" — the time of
day at which the sleep that starts at `b.start` ends. -/
def Bedtime.endOfSleep (b : Bedtime) : Int := (b.start + (b.minutes : Int)) % 1440

/-- Modelled from the spec: `Task::is_past_due` is called by
`src/methods/ivy_lee.rs` but absent from `src/task.rs`.  Spec 4.6b: a task
is eligible only if "its due date has not passed relative to
start-of-day". -/
def Task.is_past_due (t : Task) (dt : Int) : Bool := decide (t.due_date < dt)

/-- Modelled from the spec: `Task::is_considered` is called by
`src/methods/ivy_lee.rs` but absent from `src/task.rs`.  Spec 4.6b:
"start-of-day falls within its consideration window
(`due_date - consideration_period_days <= start_of_day`)". -/
def Task.is_considered (t : Task) (dt : Int) : Bool :=
  decide (t.due_date - 1440 * (t.consideration_period_days : Int) ≤ dt)

/-- The `sorted_tasks.retain(|t| ...)` closure of `IvyLeeSchedule::make`
run over the whole queue for one day: `acc` is the `day_tasks` vector the
closure pushes into (its length bounds the quota), the result is the final
`day_tasks` and the retained queue.  `days_until_due` is
`(t.due_date - start_of_day).num_days() + 1` (truncating division). -/
def ivyLeeDayAssign (config : Config) (start_of_day : Int) :
    List Task → List String → List String × List Task
  | [], acc => (acc, [])
  | t :: rest, acc =>
    if decide (acc.length < config.ivy_lee_tasks_per_day)
        && !t.is_past_due start_of_day && t.is_considered start_of_day then
      let days_until_due := Int.tdiv (t.due_date - start_of_day) 1440 + 1
      if days_until_due = 1 then
        let r := ivyLeeDayAssign config start_of_day rest (acc ++ ["Finish " ++ t.name])
        (r.1, r.2)
      else
        let r := ivyLeeDayAssign config start_of_day rest
          (acc ++ ["1/" ++ toString days_until_due ++ " of remaining " ++ t.name])
        (r.1, t :: r.2)
    else
      let r := ivyLeeDayAssign config start_of_day rest acc
      (r.1, t :: r.2)

/-- The `while day <= latest_due_date.date()` walk of
`IvyLeeSchedule::make`.  Days are day indices (timestamp / 1440); the
weekday of a day is modelled as its index mod 7 (the engine only ever asks
whether it lies in `skip_days`, and the claims fix `skip_days` to be
empty).  The `HashMap` is modelled as the association list in walk order
(its keys, the days, are strictly increasing, hence distinct).  One fuel
per day; `make` passes exactly the number of days walked plus one. -/
def ivyLeeWalk (config : Config) (bedtime : Bedtime) (lastDay : Int) :
    Nat → Int → List Task → List (Int × List String)
  | 0, _, _ => []
  | fuel + 1, day, queue =>
    if decide (day ≤ lastDay) then
      if (day % 7).toNat ∈ config.skip_days then
        ivyLeeWalk config bedtime lastDay fuel (day + 1) queue
      else
        let start_of_day := day * 1440 + bedtime.endOfSleep
        let r := ivyLeeDayAssign config start_of_day queue []
        (day, r.1) :: ivyLeeWalk config bedtime lastDay fuel (day + 1) r.2
    else []

/-- `<IvyLeeSchedule as Schedule>::make` (the `events` argument is ignored
by the source, `_: &[CalendarEvent]`).  `today` is `Local::today()` as a
day index; `latest_due_date.date()` is the floor day of the latest due
timestamp. -/
def IvyLeeSchedule.make (config : Config) (tasks : List Task)
    (_events : List CalendarEvent) (bedtime : Bedtime) (today : Int) :
    Except String (List (Int × List String)) :=
  let sorted_tasks := sortByKey (fun t => t.due_date) tasks
  match sorted_tasks.getLast? with
  | some last =>
    let lastDay := last.due_date / 1440
    .ok (ivyLeeWalk config bedtime lastDay ((lastDay - today).toNat + 1) today sorted_tasks)
  | none =>
    if tasks.isEmpty then
      .error "cannot make a schedule without tasks. try `sparrow add task` to add something"
    else
      .error "for some reason, sparrow cannot find the last due date out of all your tasks"

/-- Projection for Ivy-Lee results, used only in statements. -/
def daysOf (r : Except String (List (Int × List String))) : List (Int × List String) :=
  match r with
  | .ok l => l
  | .error _ => []

/-! Concrete fixtures used by counterexamples and witnesses. -/

/-- 25-minute work periods, 5-minute short breaks, 15-minute long breaks,
2 periods per session (session length 70). -/
def sampleConfig : Config := ⟨25, 5, 15, 2, false, [], 6⟩

/-- One 50-minute task (2 work periods) due at minute 500. -/
def sampleTask : Task := ⟨"T", 500, .minutes 50, false, 3⟩

/-- Bedtime at 20:00 for 10 hours (600 minutes). -/
def sampleBedtime : Bedtime := ⟨1200, 600⟩

/-- A never-repeating calendar event starting at minute 100. -/
def eventNoRepeat : CalendarEvent := ⟨"E", ⟨100, 30⟩, .event, .no⟩

/-- A weekly calendar event anchored at minute 0. -/
def eventWeekly : CalendarEvent := ⟨"W", ⟨0, 30⟩, .event, .weekly⟩

/-- A task due 2 days and 100 minutes after the wake time of day 0
("due in exactly 3 days" in the Ivy-Lee labelling sense). -/
def taskThreeDays : Task := ⟨"X", 3340, .minutes 50, false, 3⟩

/-! ## C1 -/

/-- C1: the claim is FALSE on the code.  `PomodoroScheduleEntryIter::next`
executes `Repeat::No => return None` before returning the prepared first
item, so a never-repeating event expands to *no* occurrence at all (first
conjunct: the collected expansion is empty for every state, horizon and
fuel), and in particular the event is missing from the fixed-entry list
built by `breaks_to_schedule_entries` even though its start 100 is before
the horizon 200 (second conjunct). -/
theorem c1_repeat_no_yields_nothing :
    (∀ (fuel : Nat) (st : Option PomodoroScheduleEntry) (horizon : Int),
      iterCollect .no fuel st horizon = []) ∧
    (breaks_to_schedule_entries [eventNoRepeat] 200 sampleBedtime 0).all
      (fun e => !(e == .Calendar "E" ⟨100, 30⟩)) = true := by
  constructor
  · intro fuel st horizon
    cases fuel with
    | zero => rfl
    | succ n => cases st with
      | none => rfl
      | some cur => rfl
  · decide

/-! ## C3 -/

/-- C3: the claim is FALSE on the code.  The spans `a = [0,10)` and
`b = [20,25)` do not touch; the claim demands
`gap.minutes = |b.start - a.end| = 10`, but `time_between` computes
`first.end() - second.start = -10` minutes and the `as u32` cast wraps it
to `4294967286`. -/
theorem c3_time_between_wraps :
    TimeSpan.time_between ⟨0, 10⟩ ⟨20, 5⟩ = some ⟨10, 4294967286⟩ ∧
    TimeSpan.touches ⟨0, 10⟩ ⟨20, 5⟩ = false := by
  decide

/-! ## C4 -/

/-- C4: with an empty task list both packers return an error (for every
config, event list, bedtime and clock), and each packer returns `Ok` for
a concrete non-empty task list. -/
theorem c4_no_tasks_error :
    (∀ (config : Config) (events : List CalendarEvent) (bedtime : Bedtime) (now today : Int),
      (PomodoroSchedule.make config [] events bedtime now today).isOk = false) ∧
    (∀ (config : Config) (events : List CalendarEvent) (bedtime : Bedtime) (today : Int),
      (IvyLeeSchedule.make config [] events bedtime today).isOk = false) ∧
    (PomodoroSchedule.make sampleConfig [sampleTask] [] sampleBedtime 360 0).isOk = true ∧
    (IvyLeeSchedule.make sampleConfig [taskThreeDays] [] sampleBedtime 0).isOk = true := by
  refine ⟨fun _ _ _ _ _ => rfl, fun _ _ _ _ => rfl, by decide, by decide⟩

/-! ## C9 -/

/-- C9: two runs of the Pomodoro packer with identical config, tasks,
events, bedtime and identical clock readings produce identical output.  In
the embedding every clock read of the source (`Local::now()` in
`fill_free_time` and in `get_open_work_sessions`, `Local::today()` in
`BedtimeScheduleEntryIter::new`) is an explicit parameter, and `make` is a
pure function of its arguments — there is no other state it could read —
so the two runs are definitionally equal. -/
theorem c9_deterministic (config : Config) (tasks : List Task)
    (events : List CalendarEvent) (bedtime : Bedtime) (now today : Int) :
    PomodoroSchedule.make config tasks events bedtime now today =
      PomodoroSchedule.make config tasks events bedtime now today := rfl

/-! ## C10 -/

/-- The `add_job(..).unwrap()` inside the inner while loop can never
panic: the loop re-checks `full()` before every call. -/
theorem addJobLoop_no_panic (name : String) :
    ∀ (n : Nat) (s : WorkSession), (addJobLoop name s n).2.2 = false := by
  intro n
  induction n with
  | zero => intro s; rfl
  | succ m ih =>
    intro s
    by_cases h : s.full
    · simp [addJobLoop, h]
    · simp only [addJobLoop, h]
      simp only [Bool.false_eq_true, if_false, WorkSession.add_job, h]
      exact ih _

theorem fillSessionFromQueue_no_panic (now : Int) :
    ∀ (queue : List UnscheduledPeriod) (s : WorkSession),
      (fillSessionFromQueue now s queue).2.2 = false := by
  intro queue
  induction queue with
  | nil => intro s; rfl
  | cons u rest ih =>
    intro s
    by_cases h1 : should_retain now u
    · by_cases h2 : s.full
      · simp [fillSessionFromQueue, h1, h2]
      · simp [fillSessionFromQueue, h1, h2, addJobLoop_no_panic, ih]
    · simp [fillSessionFromQueue, h1, ih]

theorem fillSessions_no_panic (now : Int) :
    ∀ (sessions : List WorkSession) (queue : List UnscheduledPeriod),
      (fillSessions now sessions queue).2.2 = false := by
  intro sessions
  induction sessions with
  | nil => intro queue; rfl
  | cons s rest ih =>
    intro queue
    simp [fillSessions, fillSessionFromQueue_no_panic, ih]

/-- C10: `WorkSession::add_job` errors exactly when the session is full
(job count at or above `max_jobs`), leaves the job list unchanged on the
error path and appends on the success path; and under the packing loop
guard the error branch is unreachable, so the `unwrap` in `fill_free_time`
never panics (the panic flag of the whole fill pass is always false). -/
theorem c10_add_job_guard :
    (∀ (s : WorkSession) (name : String),
      (s.add_job name).2.isOk = !decide (s.job_names.length ≥ s.max_jobs)) ∧
    (∀ (s : WorkSession) (name : String),
      s.full = true → (s.add_job name).1 = s) ∧
    (∀ (s : WorkSession) (name : String),
      s.full = false → (s.add_job name).1 = { s with job_names := s.job_names ++ [name] }) ∧
    (∀ (entries : List PomodoroScheduleEntry) (config : Config) (tasks : List Task)
        (horizon now : Int),
      (fill_free_time entries config tasks horizon now).2 = false) := by
  refine ⟨?_, ?_, ?_, ?_⟩
  · intro s name
    by_cases h : s.job_names.length ≥ s.max_jobs
    · simp [WorkSession.add_job, WorkSession.full, h, Except.isOk, Except.toBool]
    · simp [WorkSession.add_job, WorkSession.full, h, Except.isOk, Except.toBool]
  · intro s name h
    simp [WorkSession.add_job, h]
  · intro s name h
    simp [WorkSession.add_job, h]
  · intro entries config tasks horizon now
    by_cases h : tasks.isEmpty
    · simp [fill_free_time, h]
    · simp [fill_free_time, h, fillSessions_no_panic]

/-- Witness for C10 at a concrete full session and a concrete fill run. -/
theorem c10_add_job_guard_witness :
    ((⟨0, ["a", "b"], 2, 25, 5⟩ : WorkSession).full = true ∧
      ((⟨0, ["a", "b"], 2, 25, 5⟩ : WorkSession).add_job "c").1 = ⟨0, ["a", "b"], 2, 25, 5⟩) ∧
    (fill_free_time [] sampleConfig [sampleTask] 500 360).2 = false :=
  ⟨⟨by decide, c10_add_job_guard.2.1 ⟨0, ["a", "b"], 2, 25, 5⟩ "c" (by decide)⟩,
    c10_add_job_guard.2.2.2 [] sampleConfig [sampleTask] 500 360⟩

/-! ## C2 -/

/-- C2: the claim is FALSE on the code.  For the concrete run below
(`work_minutes = 25 > short_break_minutes = 5`, one two-period task) the
schedule returned by `make` contains the short break `[385, 410)` and the
job `[390, 415)`, which overlap: `WorkSession::into` builds every break
span with length `job_len_minutes` (the work period length) instead of
`break_len_minutes`, so each short break runs into the next job. -/
theorem c2_overlapping_entries :
    (PomodoroScheduleEntry.Break ⟨385, 25⟩) ∈
      entriesOf (PomodoroSchedule.make sampleConfig [sampleTask] [] sampleBedtime 360 0) ∧
    (PomodoroScheduleEntry.Job "T" ⟨390, 25⟩) ∈
      entriesOf (PomodoroSchedule.make sampleConfig [sampleTask] [] sampleBedtime 360 0) ∧
    TimeSpan.overlaps ⟨385, 25⟩ ⟨390, 25⟩ = true := by
  decide

/-! ## C7 -/

/-- `withSpan` replaces the span. -/
theorem span_withSpan (e : PomodoroScheduleEntry) (sp : TimeSpan) :
    (e.withSpan sp).span = sp := by
  cases e <;> rfl

/-- Every entry collected from a weekly iterator state starts a whole
number of weeks after the state and before the horizon, for every fuel. -/
theorem iterCollect_weekly_mem :
    ∀ (fuel : Nat) (cur : PomodoroScheduleEntry) (horizon : Int)
      (x : PomodoroScheduleEntry), x ∈ iterCollect .weekly fuel (some cur) horizon →
      ∃ k : Nat, x.span.start = cur.span.start + 10080 * k ∧ x.span.start < horizon := by
  intro fuel
  induction fuel with
  | zero => intro cur horizon x hx; simp [iterCollect] at hx
  | succ n ih =>
    intro cur horizon x hx
    simp only [iterCollect, pomodoroIterNext] at hx
    by_cases hlt : cur.span.start < horizon
    · rw [if_pos (by simpa using hlt)] at hx
      rcases List.mem_cons.mp hx with hx | hx
      · exact ⟨0, by simp [hx], by simp [hx, hlt]⟩
      · obtain ⟨k, hk, hk2⟩ := ih _ _ _ hx
        refine ⟨k + 1, ?_, hk2⟩
        rw [hk, span_withSpan]
        simp only [TimeSpan.plusDays]
        push_cast
        ring
    · rw [if_neg (by simpa using hlt)] at hx
      simp at hx

/-- C7: for a weekly calendar event expanded against a horizon, every
produced occurrence starts exactly a whole multiple of 7 days after the
anchor and strictly before the horizon (hence no occurrence at or past the
horizon is produced). -/
theorem c7_weekly_multiples (e : CalendarEvent) (horizon : Int) (hrep : e.rep = .weekly) :
    ∀ x ∈ e.entriesBefore horizon,
      ∃ k : Nat, x.span.start = e.time_span.start + 7 * 1440 * k ∧ x.span.start < horizon := by
  intro x hx
  rw [CalendarEvent.entriesBefore, hrep] at hx
  have hinit : e.initialEntry.span = e.time_span := by
    rcases e with ⟨n, sp, ty, r⟩
    cases ty <;> rfl
  obtain ⟨k, hk, hk2⟩ := iterCollect_weekly_mem _ _ _ _ hx
  refine ⟨k, ?_, hk2⟩
  rw [hk, hinit]
  ring_nf

/-- Witness for C7: the second occurrence of the weekly event anchored at
minute 0, expanded against horizon 20000, starts at 10080 = 7 days. -/
theorem c7_weekly_multiples_witness :
    eventWeekly.rep = .weekly ∧
    ∃ k : Nat,
      (PomodoroScheduleEntry.Calendar "W" ⟨10080, 30⟩).span.start =
        eventWeekly.time_span.start + 7 * 1440 * k ∧
      (PomodoroScheduleEntry.Calendar "W" ⟨10080, 30⟩).span.start < 20000 :=
  ⟨rfl, c7_weekly_multiples eventWeekly 20000 rfl _ (by decide)⟩

/-! ## C5 -/

/-- The untrimmed job/break chain: one job and one short break per name,
position `k` onward (matches the `flat_map` body of `WorkSession::into`
before the final `take`). -/
def interleaveFull (w sb : Nat) (start : Int) : Nat → List String → List PomodoroScheduleEntry
  | _, [] => []
  | k, name :: rest =>
    .Job name ⟨start + ((k * (w + sb) : Nat) : Int), w⟩ ::
      .Break ⟨start + ((w + k * (w + sb) : Nat) : Int), w⟩ ::
        interleaveFull w sb start (k + 1) rest

/-- Specification-side description of the materialized session (claim C5):
jobs at `start + i * (w + sb)` of length `w`, a break of length `w` (the
literal behaviour of the shipped code) after every job except the last. -/
def sessionSpec (w sb : Nat) (start : Int) : Nat → List String → List PomodoroScheduleEntry
  | _, [] => []
  | k, [name] => [.Job name ⟨start + ((k * (w + sb) : Nat) : Int), w⟩]
  | k, name :: rest =>
    .Job name ⟨start + ((k * (w + sb) : Nat) : Int), w⟩ ::
      .Break ⟨start + ((w + k * (w + sb) : Nat) : Int), w⟩ ::
        sessionSpec w sb start (k + 1) rest

theorem enumFrom_flatMap_interleave (w sb : Nat) (start : Int) :
    ∀ (names : List String) (k : Nat),
      ((List.enumFrom k names).flatMap (fun pair =>
        [PomodoroScheduleEntry.Job pair.2 ⟨start + ((pair.1 * (w + sb) : Nat) : Int), w⟩,
         PomodoroScheduleEntry.Break
            ⟨start + ((w : Nat) : Int) + ((pair.1 * (w + sb) : Nat) : Int), w⟩]))
      = interleaveFull w sb start k names := by
  intro names
  induction names with
  | nil => intro k; rfl
  | cons a rest ih =>
    intro k
    simp only [List.enumFrom, List.flatMap_cons, ih, interleaveFull, List.cons_append,
      List.nil_append]
    congr 2
    push_cast
    ring

theorem take_interleaveFull (w sb : Nat) (start : Int) :
    ∀ (names : List String) (k : Nat), names ≠ [] →
      (interleaveFull w sb start k names).take (2 * names.length - 1)
        = sessionSpec w sb start k names := by
  intro names
  induction names with
  | nil => intro k h; exact absurd rfl h
  | cons a rest ih =>
    intro k _
    cases rest with
    | nil => rfl
    | cons b rest2 =>
      have hlen : 2 * (a :: b :: rest2).length - 1 = ((2 * (b :: rest2).length - 1) + 1) + 1 := by
        simp [List.length]
        omega
      rw [hlen]
      rw [show interleaveFull w sb start k (a :: b :: rest2)
            = .Job a ⟨start + ((k * (w + sb) : Nat) : Int), w⟩ ::
              .Break ⟨start + ((w + k * (w + sb) : Nat) : Int), w⟩ ::
                interleaveFull w sb start (k + 1) (b :: rest2) from rfl]
      rw [List.take_succ_cons, List.take_succ_cons]
      rw [ih (k + 1) (by simp)]
      rfl

/-- C5: for a session holding at least one job, materialization produces
exactly the alternating job/break chain of `sessionSpec` — job `i` at
`start + i * (job_len + break_len)` with length `job_len`, every emitted
short break of length `job_len` (the work period length, not the
configured short break), no break after the last job — and the session
`ending` (where `fill_free_time` appends the `long_break_minutes` break)
equals `start + n*job_len + (n-1)*break_len`, which is exactly the last
job's end `start + (n-1)*(job_len+break_len) + job_len`. -/
theorem c5_session_materialization (s : WorkSession) (h : s.job_names ≠ []) :
    s.toEntries = sessionSpec s.job_len_minutes s.break_len_minutes s.start 0 s.job_names ∧
    s.ending = s.start + ((s.job_names.length * s.job_len_minutes
        + (s.job_names.length - 1) * s.break_len_minutes : Nat) : Int) ∧
    s.ending = s.start + (((s.job_names.length - 1)
        * (s.job_len_minutes + s.break_len_minutes) + s.job_len_minutes : Nat) : Int) := by
  have hne : s.job_names.isEmpty = false := by
    cases hn : s.job_names with
    | nil => exact absurd hn h
    | cons a l => rfl
  refine ⟨?_, ?_, ?_⟩
  · rw [WorkSession.toEntries]
    rw [hne]
    simp only [Bool.false_eq_true, if_false]
    rw [show s.job_names.enum = List.enumFrom 0 s.job_names from rfl]
    rw [enumFrom_flatMap_interleave]
    exact take_interleaveFull _ _ _ _ _ h
  · rw [WorkSession.ending, hne]
    simp only [Bool.false_eq_true, if_false]
    push_cast
    ring
  · rw [WorkSession.ending, hne]
    simp only [Bool.false_eq_true, if_false]
    obtain ⟨a, l, hn⟩ : ∃ a l, s.job_names = a :: l := by
      cases hn : s.job_names with
      | nil => exact absurd hn h
      | cons a l => exact ⟨a, l, rfl⟩
    rw [hn]
    simp only [List.length_cons, Nat.add_sub_cancel]
    push_cast
    ring

/-- Witness for C5 at a two-job session. -/
theorem c5_session_materialization_witness :
    ((⟨0, ["a", "b"], 2, 25, 5⟩ : WorkSession).job_names ≠ []) ∧
    ((⟨0, ["a", "b"], 2, 25, 5⟩ : WorkSession).toEntries
        = sessionSpec 25 5 0 0 ["a", "b"] ∧
      (⟨0, ["a", "b"], 2, 25, 5⟩ : WorkSession).ending = 0 + ((2 * 25 + (2 - 1) * 5 : Nat) : Int) ∧
      (⟨0, ["a", "b"], 2, 25, 5⟩ : WorkSession).ending
        = 0 + (((2 - 1) * (25 + 5) + 25 : Nat) : Int)) :=
  ⟨by decide, c5_session_materialization ⟨0, ["a", "b"], 2, 25, 5⟩ (by decide)⟩

/-! ## C6 -/

/-- Rust `i64` division of a non-negative value by a `u32` agrees with
`Nat` floor division. -/
theorem tdiv_toNat_eq (a : Int) (n : Nat) (h : 0 ≤ a) :
    (a.tdiv (n : Int)).toNat = a.toNat / n := by
  obtain ⟨m, rfl⟩ := Int.eq_ofNat_of_zero_le h
  rfl

/-- C6: `get_open_work_sessions` creates, for every span pair (each
maximal free interval between consecutive relevant fixed entries, clipped
by `now` on the left and the horizon on the right), exactly
`⌊free / len_minutes⌋` open sessions, the `i`-th starting exactly
`i * len_minutes` after the free interval's start; a leftover shorter than
one session length yields no session (that is what `Nat` floor division
states), and a pair with no free time yields none. -/
theorem c6_open_sessions_floor (config : Config) (entries : List PomodoroScheduleEntry)
    (now horizon : Int) (hL : 0 < WorkSession.len_minutes config) :
    get_open_work_sessions entries config now horizon =
      (span_pairs entries now horizon).flatMap (fun pair =>
        (List.range ((pair.2 - pair.1).toNat / WorkSession.len_minutes config)).map
          (fun i => WorkSession.new
            (pair.1 + (i : Int) * ((WorkSession.len_minutes config : Nat) : Int)) config)) := by
  rw [get_open_work_sessions]
  congr 1
  funext pair
  by_cases hp : pair.2 > pair.1
  · rw [if_pos (by simpa using hp)]
    rw [tdiv_toNat_eq _ _ (by omega)]
  · rw [if_neg (by simpa using hp)]
    have h0 : (pair.2 - pair.1).toNat = 0 := by omega
    rw [h0]
    simp

/-- Witness for C6: the run behind the C2/C4 fixtures (one sleep entry,
free interval `[360, 500)` of 140 minutes, session length 70 gives 2
sessions at 360 and 430). -/
theorem c6_open_sessions_floor_witness :
    0 < WorkSession.len_minutes sampleConfig ∧
    get_open_work_sessions [.Sleep ⟨-240, 600⟩] sampleConfig 360 500 =
      (span_pairs [.Sleep ⟨-240, 600⟩] 360 500).flatMap (fun pair =>
        (List.range ((pair.2 - pair.1).toNat / WorkSession.len_minutes sampleConfig)).map
          (fun i => WorkSession.new
            (pair.1 + (i : Int) * ((WorkSession.len_minutes sampleConfig : Nat) : Int))
            sampleConfig)) :=
  ⟨by decide, c6_open_sessions_floor sampleConfig [.Sleep ⟨-240, 600⟩] 360 500 (by decide)⟩

/-! ## C8 -/

/-- Truncating division agrees with floor division when both operands are
non-negative. -/
theorem tdiv_eq_ediv_nonneg (a b : Int) (ha : 0 ≤ a) (hb : 0 ≤ b) :
    a.tdiv b = a / b := by
  obtain ⟨m, rfl⟩ := Int.eq_ofNat_of_zero_le ha
  obtain ⟨n, rfl⟩ := Int.eq_ofNat_of_zero_le hb
  rfl

/-- `endOfSleep` is a time of day. -/
theorem endOfSleep_bounds (b : Bedtime) : 0 ≤ b.endOfSleep ∧ b.endOfSleep < 1440 := by
  rw [Bedtime.endOfSleep]
  constructor
  · exact Int.emod_nonneg _ (by norm_num)
  · exact Int.emod_lt_of_pos _ (by norm_num)

/-- One non-skipped step of the Ivy-Lee walk. -/
theorem ivyLeeWalk_step (config : Config) (bedtime : Bedtime) (lastDay : Int) (fuel : Nat)
    (day : Int) (queue : List Task) (hday : day ≤ lastDay) (hskip : config.skip_days = []) :
    ivyLeeWalk config bedtime lastDay (fuel + 1) day queue =
      (day, (ivyLeeDayAssign config (day * 1440 + bedtime.endOfSleep) queue []).1) ::
        ivyLeeWalk config bedtime lastDay fuel (day + 1)
          (ivyLeeDayAssign config (day * 1440 + bedtime.endOfSleep) queue []).2 := by
  rw [ivyLeeWalk, if_pos (by simpa using hday), hskip]
  simp

/-- `ivyLeeWalk_step` with the day assignment already computed. -/
theorem ivyLeeWalk_step2 (config : Config) (bedtime : Bedtime) (lastDay : Int) (fuel : Nat)
    (day : Int) (queue : List Task) (acc : List String) (rest : List Task)
    (hday : day ≤ lastDay) (hskip : config.skip_days = [])
    (hassign : ivyLeeDayAssign config (day * 1440 + bedtime.endOfSleep) queue [] = (acc, rest)) :
    ivyLeeWalk config bedtime lastDay (fuel + 1) day queue =
      (day, acc) :: ivyLeeWalk config bedtime lastDay fuel (day + 1) rest := by
  rw [ivyLeeWalk_step config bedtime lastDay fuel day queue hday hskip, hassign]

/-- A walk over an empty queue only produces empty day lists. -/
theorem ivyLeeWalk_empty_queue (config : Config) (bedtime : Bedtime) (lastDay : Int) :
    ∀ (fuel : Nat) (day : Int) (p : Int × List String),
      p ∈ ivyLeeWalk config bedtime lastDay fuel day [] → p.2 = [] := by
  intro fuel
  induction fuel with
  | zero => intro day p hp; simp [ivyLeeWalk] at hp
  | succ n ih =>
    intro day p hp
    rw [ivyLeeWalk] at hp
    by_cases hday : day ≤ lastDay
    · rw [if_pos (by simpa using hday)] at hp
      by_cases hsk : (day % 7).toNat ∈ config.skip_days
      · rw [if_pos hsk] at hp
        exact ih _ _ hp
      · rw [if_neg hsk] at hp
        rcases List.mem_cons.mp hp with hp | hp
        · rw [hp]; rfl
        · exact ih _ _ hp
    · rw [if_neg (by simpa using hday)] at hp
      simp at hp

/-- The day-assignment pass over a single eligible task whose
`days_until_due` is not 1: the task is labelled a partial slot and kept. -/
theorem ivyLeeDayAssign_single_keep (config : Config) (sod : Int) (t : Task)
    (hq : 0 < config.ivy_lee_tasks_per_day) (hnp : ¬ t.due_date < sod)
    (hc : t.due_date - 1440 * (t.consideration_period_days : Int) ≤ sod)
    (k : Int) (hk : Int.tdiv (t.due_date - sod) 1440 + 1 = k) (hk1 : k ≠ 1) :
    ivyLeeDayAssign config sod [t] []
      = (["1/" ++ toString k ++ " of remaining " ++ t.name], [t]) := by
  rw [ivyLeeDayAssign]
  rw [if_pos]
  · rw [hk, if_neg hk1]
    rfl
  · simp [Task.is_past_due, Task.is_considered, hnp, hc, hq]

/-- The day-assignment pass over a single eligible task due within the
day: the task is labelled "Finish" and removed. -/
theorem ivyLeeDayAssign_single_finish (config : Config) (sod : Int) (t : Task)
    (hq : 0 < config.ivy_lee_tasks_per_day) (hnp : ¬ t.due_date < sod)
    (hc : t.due_date - 1440 * (t.consideration_period_days : Int) ≤ sod)
    (hk : Int.tdiv (t.due_date - sod) 1440 + 1 = 1) :
    ivyLeeDayAssign config sod [t] [] = (["Finish " ++ t.name], []) := by
  rw [ivyLeeDayAssign]
  rw [if_pos]
  · rw [hk, if_pos rfl]
    rfl
  · simp [Task.is_past_due, Task.is_considered, hnp, hc, hq]

/-- C8: a single task "due in exactly 3 days" (its due timestamp lies
between 2 and 3 whole days after the first start-of-day), considered
immediately, with at least one daily slot and no skip days, is labelled
"1/3 of remaining X" on day 1, "1/2 of remaining X" on day 2 and
"Finish X" on day 3, after which it is removed from the queue and appears
on no later day of the walk. -/
theorem c8_ivy_lee_three_day (config : Config) (bedtime : Bedtime)
    (events : List CalendarEvent) (t : Task) (today : Int)
    (hskip : config.skip_days = [])
    (hq : 0 < config.ivy_lee_tasks_per_day)
    (h1 : 2 * 1440 ≤ t.due_date - (today * 1440 + bedtime.endOfSleep))
    (h2 : t.due_date - (today * 1440 + bedtime.endOfSleep) < 3 * 1440)
    (hc : t.due_date - 1440 * (t.consideration_period_days : Int)
        ≤ today * 1440 + bedtime.endOfSleep) :
    ∃ days, IvyLeeSchedule.make config [t] events bedtime today = .ok days ∧
      days.take 3 = [(today, ["1/3 of remaining " ++ t.name]),
                     (today + 1, ["1/2 of remaining " ++ t.name]),
                     (today + 2, ["Finish " ++ t.name])] ∧
      ∀ p ∈ days.drop 3, p.2 = [] := by
  obtain ⟨hw0, hw1⟩ := endOfSleep_bounds bedtime
  have hd0 : ivyLeeDayAssign config (today * 1440 + bedtime.endOfSleep) [t] []
      = (["1/3 of remaining " ++ t.name], [t]) := by
    have hdiv : Int.tdiv (t.due_date - (today * 1440 + bedtime.endOfSleep)) 1440 + 1 = 3 := by
      rw [tdiv_eq_ediv_nonneg _ _ (by omega) (by norm_num)]
      omega
    rw [ivyLeeDayAssign_single_keep config _ t hq (by omega) hc _ hdiv (by norm_num)]
    rw [show ("1/" : String) ++ toString (3 : Int) ++ " of remaining "
        = "1/3 of remaining " from by decide]
  have hd1 : ivyLeeDayAssign config ((today + 1) * 1440 + bedtime.endOfSleep) [t] []
      = (["1/2 of remaining " ++ t.name], [t]) := by
    have hdiv : Int.tdiv (t.due_date - ((today + 1) * 1440 + bedtime.endOfSleep)) 1440 + 1
        = 2 := by
      rw [tdiv_eq_ediv_nonneg _ _ (by omega) (by norm_num)]
      omega
    rw [ivyLeeDayAssign_single_keep config _ t hq (by omega) (by omega) _ hdiv (by norm_num)]
    rw [show ("1/" : String) ++ toString (2 : Int) ++ " of remaining "
        = "1/2 of remaining " from by decide]
  have hd2 : ivyLeeDayAssign config ((today + 1 + 1) * 1440 + bedtime.endOfSleep) [t] []
      = (["Finish " ++ t.name], []) := by
    have hdiv : Int.tdiv (t.due_date - ((today + 1 + 1) * 1440 + bedtime.endOfSleep)) 1440 + 1
        = 1 := by
      rw [tdiv_eq_ediv_nonneg _ _ (by omega) (by norm_num)]
      omega
    exact ivyLeeDayAssign_single_finish config _ t hq (by omega) (by omega) hdiv
  have hmake : IvyLeeSchedule.make config [t] events bedtime today
      = .ok (ivyLeeWalk config bedtime (t.due_date / 1440)
          ((t.due_date / 1440 - today).toNat + 1) today [t]) := rfl
  obtain ⟨f, hf⟩ : ∃ f, (t.due_date / 1440 - today).toNat + 1 = f + 3 :=
    ⟨(t.due_date / 1440 - today).toNat - 2, by omega⟩
  rw [hf, show f + 3 = f + 2 + 1 by omega] at hmake
  rw [ivyLeeWalk_step2 config bedtime _ (f + 2) today [t] _ _ (by omega) hskip hd0] at hmake
  rw [show f + 2 = f + 1 + 1 by omega] at hmake
  rw [ivyLeeWalk_step2 config bedtime _ (f + 1) (today + 1) [t] _ _ (by omega) hskip hd1]
    at hmake
  rw [ivyLeeWalk_step2 config bedtime _ f (today + 1 + 1) [t] _ _ (by omega) hskip hd2]
    at hmake
  refine ⟨_, hmake, ?_, ?_⟩
  · rw [show (3 : Nat) = 0 + 1 + 1 + 1 by omega]
    rw [List.take_succ_cons, List.take_succ_cons, List.take_succ_cons, List.take_zero]
    rw [show today + 1 + 1 = today + 2 by ring]
  · rw [show (3 : Nat) = 0 + 1 + 1 + 1 by omega]
    rw [List.drop_succ_cons, List.drop_succ_cons, List.drop_succ_cons, List.drop_zero]
    intro p hp
    exact ivyLeeWalk_empty_queue config bedtime _ f _ p hp

/-- Witness for C8: task "X" due at minute 3340 (2 days and 100 minutes
after the first wake time 360), consideration period 3 days, walked from
day 0. -/
theorem c8_ivy_lee_three_day_witness :
    (sampleConfig.skip_days = [] ∧
      0 < sampleConfig.ivy_lee_tasks_per_day ∧
      2 * 1440 ≤ taskThreeDays.due_date - (0 * 1440 + sampleBedtime.endOfSleep) ∧
      taskThreeDays.due_date - (0 * 1440 + sampleBedtime.endOfSleep) < 3 * 1440 ∧
      taskThreeDays.due_date - 1440 * (taskThreeDays.consideration_period_days : Int)
        ≤ 0 * 1440 + sampleBedtime.endOfSleep) ∧
    ∃ days, IvyLeeSchedule.make sampleConfig [taskThreeDays] [] sampleBedtime 0 = .ok days ∧
      days.take 3 = [((0 : Int), ["1/3 of remaining " ++ taskThreeDays.name]),
                     ((0 : Int) + 1, ["1/2 of remaining " ++ taskThreeDays.name]),
                     ((0 : Int) + 2, ["Finish " ++ taskThreeDays.name])] ∧
      ∀ p ∈ days.drop 3, p.2 = [] :=
  ⟨⟨rfl, by decide, by decide, by decide, by decide⟩,
    c8_ivy_lee_three_day sampleConfig sampleBedtime [] taskThreeDays 0 rfl (by decide)
      (by decide) (by decide) (by decide)⟩

end Sparrow
